import Mathlib

/-!
Formal model of the save-orchestration logic of `Orange.widgets.utils.save.owsavebase`
(`OWSaveBase`).

Strings are modelled as Lean `String` (a packed `List Char`); the path-manipulation
helpers from Python's standard library that the code relies on (`os.path.splitext`,
`os.path.split`, `str.split`) are embedded faithfully at the `List Char` level,
mirroring the reference CPython implementations for POSIX paths (separator `/`).
Filter labels and filenames are assumed to contain no newline characters, so the
regular expression in `_extension_from_filter` is modelled with `.` matching any
character.  Python `set`s of strings are modelled as `List String` up to membership
(the code only ever tests membership).

The `while True` loop of `_replace_extension` is modelled by a fuel-indexed function
`stripWhileKnown`; `none` means the loop would not have terminated (each productive
iteration strictly shortens the string, so `length + 1` units of fuel are exhausted
only by a diverging loop).  A total well-founded companion `stripExts` is used in
proofs and related to the fuel version by `stripWhileKnown_eq_stripExts`.
-/

namespace OWSaveBase

/-- Index of the last occurrence of a character in a list, if any
(Python `str.rfind`, with `none` for "not found"). -/
def rfind? (c : Char) : List Char → Option Nat
  | [] => none
  | x :: xs =>
    match rfind? c xs with
    | some i => some (i + 1)
    | none => if x = c then some 0 else none

theorem rfind?_eq_none (c : Char) (l : List Char) (h : c ∉ l) : rfind? c l = none := by
  induction l with
  | nil => rfl
  | cons x xs ih =>
    simp only [List.mem_cons, not_or] at h
    simp only [rfind?, ih h.2]
    have : x ≠ c := fun hx => h.1 hx.symm
    simp [this]

theorem rfind?_lt_length (c : Char) (l : List Char) (i : Nat) (h : rfind? c l = some i) :
    i < l.length := by
  induction l generalizing i with
  | nil => simp [rfind?] at h
  | cons x xs ih =>
    simp only [rfind?] at h
    cases hx : rfind? c xs with
    | some j =>
      rw [hx] at h
      cases h
      have := ih j hx
      simp only [List.length_cons]
      omega
    | none =>
      rw [hx] at h
      by_cases hxc : x = c
      · simp [hxc] at h
        cases h
        simp
      · simp [hxc] at h

theorem rfind?_append (c : Char) (l₁ l₂ : List Char) :
    rfind? c (l₁ ++ l₂) =
      match rfind? c l₂ with
      | some i => some (l₁.length + i)
      | none => rfind? c l₁ := by
  induction l₁ with
  | nil =>
    simp only [List.nil_append, List.length_nil]
    cases h : rfind? c l₂ with
    | some i => simp [h]
    | none => simp [h, rfind?]
  | cons x xs ih =>
    have hcons : rfind? c ((x :: xs) ++ l₂) =
        match rfind? c (xs ++ l₂) with
        | some j => some (j + 1)
        | none => if x = c then some 0 else none := rfl
    rw [hcons, ih]
    cases h : rfind? c l₂ with
    | some i =>
      show some (xs.length + i + 1) = some ((x :: xs).length + i)
      simp only [List.length_cons]
      congr 1
      omega
    | none => rfl

theorem drop_append_le {α : Type} (u v : List α) (k : Nat) (hk : k ≤ u.length) :
    (u ++ v).drop k = u.drop k ++ v := by
  induction u generalizing k with
  | nil =>
    simp at hk
    subst hk
    simp
  | cons x xs ih =>
    cases k with
    | zero => simp
    | succ n =>
      simp only [List.cons_append, List.drop_succ_cons]
      exact ih n (by simpa using hk)

theorem take_append_le {α : Type} (u v : List α) (k : Nat) (hk : k ≤ u.length) :
    (u ++ v).take k = u.take k := by
  induction u generalizing k with
  | nil =>
    simp at hk
    subst hk
    simp
  | cons x xs ih =>
    cases k with
    | zero => simp
    | succ n =>
      simp only [List.cons_append, List.take_succ_cons]
      rw [ih n (by simpa using hk)]

theorem take_length_append {α : Type} (u v : List α) : (u ++ v).take u.length = u := by
  rw [take_append_le u v u.length (le_refl _), List.take_length]

theorem drop_length_append {α : Type} (u v : List α) : (u ++ v).drop u.length = v := by
  rw [drop_append_le u v u.length (le_refl _), List.drop_length, List.nil_append]

/-- Model of CPython `posixpath.splitext` (via `genericpath._splitext` with
separator `/`, no alternative separator, extension separator `.`): split at the
last dot that comes after the last separator, unless every character of the
basename before that dot is itself a dot (leading dots of a basename do not
start an extension). -/
def splitextL (p : List Char) : List Char × List Char :=
  match rfind? '.' p with
  | none => (p, [])
  | some d =>
    let start : Nat :=
      match rfind? '/' p with
      | none => 0
      | some s => s + 1
    if start ≤ d ∧ ((p.drop start).take (d - start)).any (fun c => c != '.') = true then
      (p.take d, p.drop d)
    else (p, [])

theorem splitextL_append_eq (p : List Char) : (splitextL p).1 ++ (splitextL p).2 = p := by
  unfold splitextL
  cases h : rfind? '.' p with
  | none => simp
  | some d =>
    dsimp only
    split
    · simp [List.take_append_drop]
    · simp

theorem splitextL_fst_length_lt (p : List Char) (h : (splitextL p).2 ≠ []) :
    (splitextL p).1.length < p.length := by
  have hap := congrArg List.length (splitextL_append_eq p)
  rw [List.length_append] at hap
  have : (splitextL p).2.length ≠ 0 := by
    intro h0
    exact h (List.length_eq_zero.mp h0)
  omega

/-- Basename of a POSIX path: everything after the last separator
(the whole string when there is none). -/
def basenameL (p : List Char) : List Char :=
  match rfind? '/' p with
  | none => p
  | some s => p.drop (s + 1)

theorem basenameL_append (u v : List Char) (hv : '/' ∉ v) :
    basenameL (u ++ v) = basenameL u ++ v := by
  unfold basenameL
  rw [rfind?_append '/' u v, rfind?_eq_none '/' v hv]
  cases h : rfind? '/' u with
  | none => rfl
  | some s =>
    have hs := rfind?_lt_length '/' u s h
    simp only [drop_append_le u v (s + 1) (by omega)]

/-- Fuel-indexed model of the `while True` loop in `OWSaveBase._replace_extension`:

    while True:
        base, ext = os.path.splitext(filename)
        if ext[1:] not in known_extensions:
            break
        filename = base

Returns `some` of the final filename when the loop exits within `fuel` iterations
and `none` otherwise.  Each productive iteration strictly shortens the string, so
`fuel = filename.length + 1` is exhausted exactly when the Python loop diverges
(which can only happen when the empty token is in `known`). -/
def stripWhileKnown (known : List (List Char)) : Nat → List Char → Option (List Char)
  | 0, _ => none
  | fuel + 1, filename =>
    if (splitextL filename).2.drop 1 ∈ known then
      stripWhileKnown known fuel (splitextL filename).1
    else some filename

/-- Total companion of `stripWhileKnown`, used in proofs; it agrees with the loop
whenever the empty token is not in `known` (`stripWhileKnown_eq_stripExts`). -/
def stripExts (known : List (List Char)) (p : List Char) : List Char :=
  if h : (splitextL p).2 ≠ [] ∧ (splitextL p).2.drop 1 ∈ known then
    stripExts known (splitextL p).1
  else p
termination_by p.length
decreasing_by exact splitextL_fst_length_lt p h.1

theorem stripExts_eq (known : List (List Char)) (p : List Char) :
    stripExts known p =
      if (splitextL p).2 ≠ [] ∧ (splitextL p).2.drop 1 ∈ known then
        stripExts known (splitextL p).1
      else p := by
  rw [stripExts, dite_eq_ite]

theorem stripWhileKnown_eq_stripExts (known : List (List Char)) (hk : [] ∉ known) :
    ∀ (fuel : Nat) (p : List Char), p.length < fuel →
      stripWhileKnown known fuel p = some (stripExts known p) := by
  intro fuel
  induction fuel with
  | zero => intro p hp; omega
  | succ n ih =>
    intro p hp
    have hstep : stripWhileKnown known (n + 1) p =
        if (splitextL p).2.drop 1 ∈ known then stripWhileKnown known n (splitextL p).1
        else some p := rfl
    by_cases hm : (splitextL p).2.drop 1 ∈ known
    · have hne : (splitextL p).2 ≠ [] := by
        intro h0
        rw [h0] at hm
        exact hk hm
      have hlt := splitextL_fst_length_lt p hne
      rw [hstep, if_pos hm, ih (splitextL p).1 (by omega)]
      rw [stripExts_eq known p, if_pos ⟨hne, hm⟩]
    · rw [hstep, if_neg hm]
      rw [stripExts_eq known p, if_neg (fun hand => hm hand.2)]

theorem stripExts_stripped (known : List (List Char)) (p : List Char) :
    ¬((splitextL (stripExts known p)).2 ≠ [] ∧
      (splitextL (stripExts known p)).2.drop 1 ∈ known) := by
  generalize hn : p.length = n
  induction n using Nat.strong_induction_on generalizing p with
  | _ n ih =>
    rw [stripExts_eq]
    by_cases hg : (splitextL p).2 ≠ [] ∧ (splitextL p).2.drop 1 ∈ known
    · rw [if_pos hg]
      exact ih (splitextL p).1.length (hn ▸ splitextL_fst_length_lt p hg.1)
        (splitextL p).1 rfl
    · rw [if_neg hg]
      exact hg

theorem splitextL_append_ext (u t : List Char) (ht1 : '.' ∉ t) (ht2 : '/' ∉ t) :
    splitextL (u ++ '.' :: t) =
      if (basenameL u).any (fun c => c != '.') = true then (u, '.' :: t)
      else (u ++ '.' :: t, []) := by
  have hdot : rfind? '.' (u ++ '.' :: t) = some u.length := by
    rw [rfind?_append]
    have h2 : rfind? '.' ('.' :: t) = some 0 := by
      show (match rfind? '.' t with
            | some i => some (i + 1)
            | none => if '.' = '.' then some 0 else none) = some 0
      rw [rfind?_eq_none '.' t ht1]
      simp
    rw [h2]
    simp
  have hsep : rfind? '/' (u ++ '.' :: t) = rfind? '/' u := by
    rw [rfind?_append]
    have h2 : rfind? '/' ('.' :: t) = none := by
      apply rfind?_eq_none
      simp only [List.mem_cons, not_or]
      exact ⟨by decide, ht2⟩
    rw [h2]
  unfold splitextL
  rw [hdot]
  dsimp only
  rw [hsep]
  cases hs : rfind? '/' u with
  | none =>
    have hcond : (0 ≤ u.length ∧
        (((u ++ '.' :: t).drop 0).take (u.length - 0)).any (fun c => c != '.') = true) ↔
        ((basenameL u).any (fun c => c != '.') = true) := by
      rw [List.drop_zero, Nat.sub_zero, take_length_append]
      unfold basenameL
      rw [hs]
      simp
    by_cases hb : (basenameL u).any (fun c => c != '.') = true
    · rw [if_pos (hcond.mpr hb), if_pos hb, take_length_append, drop_length_append]
    · rw [if_neg (fun hc => hb (hcond.mp hc)), if_neg hb]
  | some s =>
    have hslt : s < u.length := rfind?_lt_length '/' u s hs
    have hdrop : (u ++ '.' :: t).drop (s + 1) = u.drop (s + 1) ++ '.' :: t :=
      drop_append_le u ('.' :: t) (s + 1) (by omega)
    have hlen : (u.drop (s + 1)).length = u.length - (s + 1) := List.length_drop _ _
    have hcond : (s + 1 ≤ u.length ∧
        (((u ++ '.' :: t).drop (s + 1)).take (u.length - (s + 1))).any
          (fun c => c != '.') = true) ↔
        ((basenameL u).any (fun c => c != '.') = true) := by
      rw [hdrop, ← hlen, take_length_append]
      unfold basenameL
      rw [hs]
      simp
      omega
    by_cases hb : (basenameL u).any (fun c => c != '.') = true
    · rw [if_pos (hcond.mpr hb), if_pos hb, take_length_append, drop_length_append]
    · rw [if_neg (fun hc => hb (hcond.mp hc)), if_neg hb]

/-- Concatenation of extension tokens into a dotted extension chain:
`extChainL [t₁, …, tₖ] = "." ++ t₁ ++ "." ++ t₂ ++ … ++ "." ++ tₖ`. -/
def extChainL : List (List Char) → List Char
  | [] => []
  | t :: ts => '.' :: (t ++ extChainL ts)

theorem extChainL_append (l₁ l₂ : List (List Char)) :
    extChainL (l₁ ++ l₂) = extChainL l₁ ++ extChainL l₂ := by
  induction l₁ with
  | nil => simp [extChainL]
  | cons t ts ih => simp [extChainL, ih]

theorem extChainL_no_slash (ts : List (List Char)) (h : ∀ t ∈ ts, '/' ∉ t) :
    '/' ∉ extChainL ts := by
  induction ts with
  | nil => simp [extChainL]
  | cons t ts ih =>
    simp only [extChainL, List.mem_cons, List.mem_append, not_or]
    refine ⟨by decide, h t (by simp), ih (fun x hx => h x (by simp [hx]))⟩

theorem stripExts_chain (known : List (List Char)) (b : List Char)
    (hb : ¬((splitextL b).2 ≠ [] ∧ (splitextL b).2.drop 1 ∈ known))
    (hbase : (basenameL b).any (fun c => c != '.') = true) :
    ∀ ts : List (List Char), (∀ t ∈ ts, t ∈ known ∧ '.' ∉ t ∧ '/' ∉ t) →
      stripExts known (b ++ extChainL ts) = b := by
  intro ts
  induction ts using List.reverseRecOn with
  | nil =>
    intro _
    rw [show extChainL [] = [] from rfl, List.append_nil, stripExts_eq, if_neg hb]
  | append_singleton ts t ih =>
    intro hts
    have ht := hts t (by simp)
    have hts' : ∀ x ∈ ts, x ∈ known ∧ '.' ∉ x ∧ '/' ∉ x :=
      fun x hx => hts x (by simp [hx])
    rw [extChainL_append, show extChainL [t] = '.' :: (t ++ []) from rfl, List.append_nil,
      ← List.append_assoc]
    have hsplit : splitextL ((b ++ extChainL ts) ++ '.' :: t) = (b ++ extChainL ts, '.' :: t) := by
      rw [splitextL_append_ext (b ++ extChainL ts) t ht.2.1 ht.2.2]
      have hbn : basenameL (b ++ extChainL ts) = basenameL b ++ extChainL ts :=
        basenameL_append b (extChainL ts) (extChainL_no_slash ts (fun x hx => (hts' x hx).2.2))
      rw [if_pos]
      rw [hbn, List.any_append, hbase, Bool.true_or]
    rw [stripExts_eq, hsplit]
    simp only [List.drop_succ_cons, List.drop_zero]
    rw [if_pos ⟨by simp, ht.1⟩]
    exact ih hts'

/-- Does position `i` of `s` start a viable `\(\*?(\..*)\)$` tail for the regex
`.*\(\*?(\..*)\)$`?  Position `i` must hold `'('`, followed either by `'*'` and
`'.'` (the `\*?` branch, preferred by backtracking) or directly by `'.'`, and the
dot must lie strictly before the final position, which must hold `')'` (checked
separately).  Since `.*` is greedy, the regex captures from the rightmost viable
position. -/
def goodAt (s : List Char) (i : Nat) : Bool :=
  (s.get? i == some '(') &&
    ((s.get? (i + 1) == some '*' && s.get? (i + 2) == some '.' &&
        decide (i + 2 < s.length - 1)) ||
      (s.get? (i + 1) == some '.' && decide (i + 1 < s.length - 1)))

/-- Model of `OWSaveBase._extension_from_filter`:

    return re.search(r".*\(\*?(\..*)\)$", selected_filter).group(1)

`none` models the `AttributeError` raised when the label does not match
(`re.search` returns `None`).  Labels are assumed newline-free, so `.` matches
any character and `$` means end of string. -/
def extFromFilterL (s : List Char) : Option (List Char) :=
  if s.getLast? = some ')' then
    match ((List.range s.length).filter (fun i => goodAt s i)).getLast? with
    | some i =>
      let d := if s.get? (i + 1) == some '*' then i + 2 else i + 1
      some ((s.take (s.length - 1)).drop d)
    | none => none
  else none

theorem filter_range_getLast (f : Nat → Bool) (n p : Nat) (hp : p < n) (hfp : f p = true)
    (habove : ∀ i, p < i → i < n → f i = false) :
    ((List.range n).filter f).getLast? = some p := by
  induction n with
  | zero => omega
  | succ m ih =>
    rw [List.range_succ, List.filter_append]
    by_cases hpm : p = m
    · subst hpm
      rw [show List.filter f [p] = [p] by simp [hfp]]
      exact List.getLast?_concat _
    · have hplt : p < m := by omega
      rw [show List.filter f [m] = [] by simp [habove m hplt (by omega)], List.append_nil]
      exact ih hplt (fun i hi him => habove i hi (by omega))

theorem get?_append_left_ne {α : Type} (u v : List α) (k : Nat) (hk : u.length ≤ k) :
    (u ++ v).get? k = v.get? (k - u.length) := by
  induction u generalizing k with
  | nil => simp
  | cons x xs ih =>
    cases k with
    | zero => simp at hk
    | succ n =>
      simp only [List.cons_append, List.get?_cons_succ, List.length_cons]
      rw [ih n (by simpa using hk)]
      congr 1
      omega

theorem extFromFilterL_shape (pre e1 e2 : List Char) (h1 : '(' ∉ e1) (h2 : '(' ∉ e2) :
    extFromFilterL (pre ++ '(' :: '*' :: '.' :: (e1 ++ '.' :: (e2 ++ [')']))) =
      some ('.' :: (e1 ++ '.' :: e2)) := by
  set s0 := pre ++ '(' :: '*' :: '.' :: (e1 ++ '.' :: e2) with hs0
  have hsplit : pre ++ '(' :: '*' :: '.' :: (e1 ++ '.' :: (e2 ++ [')'])) = s0 ++ [')'] := by
    rw [hs0]
    simp
  rw [hsplit]
  have hlenrest : ('(' :: '*' :: '.' :: (e1 ++ '.' :: e2)).length =
      e1.length + e2.length + 4 := by
    simp
    omega
  have hlens0 : s0.length = pre.length + e1.length + e2.length + 4 := by
    rw [hs0]
    simp
    omega
  have hlen : (s0 ++ [')']).length = pre.length + e1.length + e2.length + 5 := by
    rw [List.length_append, hlens0]
    simp
  set n := (s0 ++ [')']).length with hn
  set p := pre.length with hpre
  have hget0 : (s0 ++ [')']).get? p = some '(' := by
    rw [hs0, List.append_assoc]
    rw [get?_append_left_ne pre _ p (le_refl _)]
    simp
  have hget1 : (s0 ++ [')']).get? (p + 1) = some '*' := by
    rw [hs0, List.append_assoc]
    rw [get?_append_left_ne pre _ (p + 1) (by omega)]
    simp [hpre]
  have hget2 : (s0 ++ [')']).get? (p + 2) = some '.' := by
    rw [hs0, List.append_assoc]
    rw [get?_append_left_ne pre _ (p + 2) (by omega)]
    simp [hpre]
  have hgood : goodAt (s0 ++ [')']) p = true := by
    unfold goodAt
    rw [hget0, hget1, hget2, ← hn]
    have : p + 2 < n - 1 := by omega
    simp [this]
  have habove : ∀ i, p < i → i < n → goodAt (s0 ++ [')']) i = false := by
    intro i hpi hin
    unfold goodAt
    have hne : ¬((s0 ++ [')']).get? i == some '(') = true := by
      intro hbeq
      have heq : (s0 ++ [')']).get? i = some '(' := eq_of_beq hbeq
      have hrest : (s0 ++ [')']).get? i =
          ('(' :: '*' :: '.' :: (e1 ++ '.' :: e2) ++ [')']).get? (i - p) := by
        rw [hs0, List.append_assoc]
        exact get?_append_left_ne pre _ i (by omega)
      have hip : 1 ≤ i - p := by omega
      have htail : ('(' :: '*' :: '.' :: (e1 ++ '.' :: e2) ++ [')']).get? (i - p) =
          ('*' :: '.' :: (e1 ++ '.' :: e2) ++ [')']).get? (i - p - 1) := by
        cases hip' : i - p with
        | zero => omega
        | succ k =>
          simp only [List.cons_append, List.get?_cons_succ]
          congr 1
      rw [hrest, htail] at heq
      have hmem : '(' ∈ ('*' :: '.' :: (e1 ++ '.' :: e2) ++ [')']) := List.get?_mem heq
      simp [h1, h2] at hmem
    have ha : ((s0 ++ [')']).get? i == some '(') = false := by
      cases hcase : ((s0 ++ [')']).get? i == some '(') with
      | false => rfl
      | true => exact absurd hcase hne
    rw [ha, Bool.false_and]
  unfold extFromFilterL
  rw [if_pos (List.getLast?_concat s0)]
  rw [filter_range_getLast (fun i => goodAt (s0 ++ [')']) i) n p (by omega) hgood habove]
  dsimp only
  rw [if_pos (show ((s0 ++ [')']).get? (p + 1) == some '*') = true by rw [hget1]; decide)]
  have htake : (s0 ++ [')']).take (n - 1) = s0 := by
    have hn1 : n - 1 = s0.length := by omega
    rw [hn1, take_length_append]
  rw [htake]
  have hdrop : s0.drop (p + 2) = '.' :: (e1 ++ '.' :: e2) := by
    rw [hs0, show pre ++ '(' :: '*' :: '.' :: (e1 ++ '.' :: e2) =
      (pre ++ ['(', '*']) ++ '.' :: (e1 ++ '.' :: e2) by simp]
    have hl : (pre ++ ['(', '*']).length = p + 2 := by simp [hpre]
    rw [← hl, drop_length_append]
  rw [hdrop]

/-- Model of Python `str.split(".")` on character lists:
`"a.b" ↦ ["a","b"]`, `".tab.gz" ↦ ["", "tab", "gz"]`, `"" ↦ [""]`. -/
def splitOnDotL : List Char → List (List Char)
  | [] => [[]]
  | c :: rest =>
    match splitOnDotL rest with
    | [] => [[]]
    | h :: t => if c = '.' then [] :: h :: t else (c :: h) :: t

/-- String-level model of `OWSaveBase._extension_from_filter`;
`none` models the `AttributeError` on a non-matching label. -/
def extension_from_filter (selected_filter : String) : Option String :=
  (extFromFilterL selected_filter.data).map (fun l => String.mk l)

/-- Known-extension set computed at the top of `OWSaveBase._replace_extension`:

    known_extensions = set()
    for filt in cls.filters:
        known_extensions |= set(cls._extension_from_filter(filt).split("."))
    if "" in known_extensions:
        known_extensions.remove("")

The Python set is modelled as a list up to membership; `none` models the
`AttributeError` raised when some filter label does not match the pattern. -/
def knownExts (filters : List String) : Option (List String) :=
  match filters.mapM extension_from_filter with
  | none => none
  | some exts =>
    some ((exts.map (fun e => (splitOnDotL e.data).map (fun l => String.mk l))).flatten.filter
      (fun t => t != ""))

/-- Core of `OWSaveBase._replace_extension`, parameterised directly by the set of
known extension tokens (the claims quantify over this set): run the stripping
loop and append the target extension to the stripped base.  `none` models a
diverging loop (possible only when `""` is in `known_extensions`, which the
enclosing method rules out). -/
def normalize (path target_extension : String) (known : List String) : Option String :=
  (stripWhileKnown (known.map String.data) (path.data.length + 1) path.data).map
    (fun b => String.mk (b ++ target_extension.data))

/-- Model of the whole `OWSaveBase._replace_extension` classmethod: collect the
known extension tokens from all filter labels, drop the empty token, then strip
and append. -/
def replace_extension (filters : List String) (filename extension : String) : Option String :=
  match knownExts filters with
  | none => none
  | some known => normalize filename extension known

/-- Stripping process exactly as the specification words it: repeatedly strip the
path's last dot-extension while its token (without the leading dot) is a known
token; stop at the first unrecognized extension or when none remains.
`StripSpec K p b` says the process started at `p` stops at `b`. -/
inductive StripSpec (known : List (List Char)) : List Char → List Char → Prop where
  | stop (p : List Char) :
      (splitextL p).2 = [] ∨ (splitextL p).2.drop 1 ∉ known → StripSpec known p p
  | strip (p b : List Char) :
      (splitextL p).2 ≠ [] → (splitextL p).2.drop 1 ∈ known →
      StripSpec known (splitextL p).1 b → StripSpec known p b

theorem stripExts_stripSpec (known : List (List Char)) (p : List Char) :
    StripSpec known p (stripExts known p) := by
  generalize hn : p.length = n
  induction n using Nat.strong_induction_on generalizing p with
  | _ n ih =>
    rw [stripExts_eq]
    by_cases hg : (splitextL p).2 ≠ [] ∧ (splitextL p).2.drop 1 ∈ known
    · rw [if_pos hg]
      exact StripSpec.strip p _ hg.1 hg.2
        (ih (splitextL p).1.length (hn ▸ splitextL_fst_length_lt p hg.1) (splitextL p).1 rfl)
    · rw [if_neg hg]
      apply StripSpec.stop
      by_cases he : (splitextL p).2 = []
      · exact Or.inl he
      · exact Or.inr (fun hm => hg ⟨he, hm⟩)

theorem data_ne_nil_of_ne_empty (k : String) (h : k ≠ "") : k.data ≠ [] := by
  intro hd
  apply h
  cases k with
  | mk d => cases hd; rfl

theorem nil_notMem_map_data (K : List String) (h : "" ∉ K) :
    [] ∉ K.map String.data := by
  intro hm
  rcases List.mem_map.mp hm with ⟨k, hk, hkd⟩
  by_cases hke : k = ""
  · exact h (hke ▸ hk)
  · exact data_ne_nil_of_ne_empty k hke hkd

/-- Outcome of one call to a writer's `write(filename, data)`: normal return,
an `IOError` with its message, or any other exception with its message. -/
inductive WriteResult where
  | ok : WriteResult
  | ioError (msg : String) : WriteResult
  | otherError (msg : String) : WriteResult

/-- Status messages of the base widget: the two `Msg` conditions declared in
`OWSaveBase.Error` / `OWSaveBase.Information` plus `general_error`, which is
active together with the carried text of the underlying failure.
The base class declares no `Warning` messages. -/
structure Messages where
  no_file_name : Bool
  empty_input : Bool
  general_error : Option String
deriving DecidableEq, Repr

/-- Mutable state of an `OWSaveBase` widget relevant to the save orchestration:
the persisted settings (`last_dir`, `filter`, `filename`, `auto_save`), the
runtime input `data` (`None` = absent), and the status messages.  GUI-only
state (button labels, layout) is not modelled. -/
structure WidgetState (α : Type) where
  data : Option α
  filename : String
  filter : String
  last_dir : String
  auto_save : Bool
  msgs : Messages
deriving DecidableEq, Repr

/-- Result of running one widget method: the state after the call, the uncaught
exception (message) if one propagates to the host framework, and the trace of
writer invocations `(filter, filename, data)` performed during the call. -/
structure MethodResult (α : Type) where
  state : WidgetState α
  raised : Option String
  writes : List (String × String × α)
deriving DecidableEq, Repr

/-- Registry of writers: `reg filter filename data` is the outcome of
`cls.filters[filter].write(filename, data)`.  The lookup itself is assumed to
succeed (the `filter ∈ filters` invariant of the widget). -/
def Registry (α : Type) : Type := String → String → α → WriteResult

/-- Model of `OWSaveBase.update_messages`:

    self.Error.no_file_name(shown=not self.filename and self.auto_save)
    self.Information.empty_input(shown=self.filename and self.data is None)

`general_error` is left untouched. -/
def update_messages {α : Type} (s : WidgetState α) : WidgetState α :=
  { s with msgs :=
    { s.msgs with
      no_file_name := (s.filename == "") && s.auto_save
      empty_input := (!(s.filename == "")) && s.data.isNone } }

/-- Model of `OWSaveBase._try_save`: clear `general_error`, do nothing if there
is no data or no file name, otherwise call `do_save` (which invokes the writer
for the current filter), catching `IOError` only. -/
def try_save {α : Type} (reg : Registry α) (s : WidgetState α) : MethodResult α :=
  let s1 := { s with msgs := { s.msgs with general_error := none } }
  match s1.data with
  | none => ⟨s1, none, []⟩
  | some d =>
    if s1.filename == "" then ⟨s1, none, []⟩
    else
      match reg s1.filter s1.filename d with
      | WriteResult.ok => ⟨s1, none, [(s1.filter, s1.filename, d)]⟩
      | WriteResult.ioError m =>
        ⟨{ s1 with msgs := { s1.msgs with general_error := some m } }, none,
          [(s1.filter, s1.filename, d)]⟩
      | WriteResult.otherError m => ⟨s1, some m, [(s1.filter, s1.filename, d)]⟩

/-- Model of `os.path.split(p)[0]` for POSIX paths (`posixpath.split`): the part
up to the last separator, with trailing separators stripped unless the head
consists only of separators. -/
def dirname (p : String) : String :=
  match rfind? '/' p.data with
  | none => ""
  | some s =>
    let head := p.data.take (s + 1)
    if head.all (fun c => c == '/') then String.mk head
    else String.mk (head.reverse.dropWhile (fun c => c == '/')).reverse

/-- Model of `OWSaveBase.save_file_as`.  The file dialog is an external
collaborator; its outcome is the argument `pick = (filename, selected_filter)`,
where an empty filename models cancellation.  The button-caption update is
GUI-only and not part of the state. -/
def save_file_as {α : Type} (reg : Registry α) (pick : String × String)
    (s : WidgetState α) : MethodResult α :=
  if pick.1 == "" then ⟨s, none, []⟩
  else
    let s1 := { s with filename := pick.1, filter := pick.2, last_dir := dirname pick.1 }
    try_save reg (update_messages s1)

/-- Model of `OWSaveBase.save_file`: try saving if a file name is set, else ask
for one. -/
def save_file {α : Type} (reg : Registry α) (pick : String × String)
    (s : WidgetState α) : MethodResult α :=
  if s.filename == "" then save_file_as reg pick s
  else try_save reg s

/-- Messages after `self.Error.clear(); self.Warning.clear(); self.Information.clear()`:
every condition of the widget is withdrawn. -/
def clearAllMsgs {α : Type} (s : WidgetState α) : WidgetState α :=
  { s with msgs := ⟨false, false, none⟩ }

/-- Model of `OWSaveBase.on_new_input` (the input handler stores the new data in
`self.data` before calling it, so the new data is part of `s` here): clear all
status conditions, recompute the messages (`update_status` is a no-op in the
base class), then save if auto-save is enabled and a file name is set. -/
def on_new_input {α : Type} (reg : Registry α) (pick : String × String)
    (s : WidgetState α) : MethodResult α :=
  let s2 := update_messages (clearAllMsgs s)
  if s2.auto_save && !(s2.filename == "") then save_file reg pick s2
  else ⟨s2, none, []⟩

theorem string_data_append (s t : String) : (s ++ t).data = s.data ++ t.data := rfl

theorem string_data_inj (s t : String) (h : s.data = t.data) : s = t := by
  cases s with
  | mk d =>
    cases t with
    | mk d' =>
      cases h
      rfl

theorem beq_empty_eq_false (s : String) (h : s ≠ "") : (s == "") = false := by
  cases hb : s == "" with
  | false => rfl
  | true => exact absurd (eq_of_beq hb) h

theorem try_save_no_data {α : Type} (reg : Registry α) (s : WidgetState α)
    (hd : s.data = none) :
    try_save reg s = ⟨{ s with msgs := { s.msgs with general_error := none } }, none, []⟩ := by
  unfold try_save
  simp [hd]

theorem try_save_no_filename {α : Type} (reg : Registry α) (s : WidgetState α) (d : α)
    (hd : s.data = some d) (hf : s.filename = "") :
    try_save reg s = ⟨{ s with msgs := { s.msgs with general_error := none } }, none, []⟩ := by
  unfold try_save
  simp [hd, hf]

theorem try_save_write {α : Type} (reg : Registry α) (s : WidgetState α) (d : α)
    (hd : s.data = some d) (hf : s.filename ≠ "") :
    try_save reg s =
      match reg s.filter s.filename d with
      | WriteResult.ok =>
        ⟨{ s with msgs := { s.msgs with general_error := none } }, none,
          [(s.filter, s.filename, d)]⟩
      | WriteResult.ioError m =>
        ⟨{ s with msgs := { s.msgs with general_error := some m } }, none,
          [(s.filter, s.filename, d)]⟩
      | WriteResult.otherError m =>
        ⟨{ s with msgs := { s.msgs with general_error := none } }, some m,
          [(s.filter, s.filename, d)]⟩ := by
  unfold try_save
  simp [hd, beq_empty_eq_false s.filename hf]

/-- Concrete registry whose writer always raises an `IOError`. -/
def regIO : Registry Nat := fun _ _ _ => WriteResult.ioError "disk full"

/-- Concrete registry whose writer always raises a non-IO exception. -/
def regOther : Registry Nat := fun _ _ _ => WriteResult.otherError "bad value"

/-- Concrete registry whose writer always succeeds. -/
def regOk : Registry Nat := fun _ _ _ => WriteResult.ok

/-- Concrete widget state used by the witnesses. -/
def mkState (data : Option Nat) (filename : String) (auto : Bool) : WidgetState Nat :=
  ⟨data, filename, "CSV files (*.csv)", "", auto, ⟨false, false, some "old error"⟩⟩

/-- C1: for every path and target extension, `_replace_extension`'s loop performs
exactly the stripping process described by the specification (`StripSpec`: strip
the last dot-extension while its token is known, stop at the first unrecognized
extension or when none remains) and appends the target extension to the stripped
base; in particular `normalize "report.tab.gz" ".csv" {tab, gz} = "report.csv"`
and `normalize "report.v2" ".csv" {tab, gz} = "report.v2.csv"`. -/
theorem C1_normalize_strips_known_tokens :
    (∀ (p e : String) (K : List String), "" ∉ K →
      ∃ b : List Char, StripSpec (K.map String.data) p.data b ∧
        normalize p e K = some (String.mk (b ++ e.data))) ∧
    normalize "report.tab.gz" ".csv" ["tab", "gz"] = some "report.csv" ∧
    normalize "report.v2" ".csv" ["tab", "gz"] = some "report.v2.csv" := by
  refine ⟨?_, by decide, by decide⟩
  intro p e K hK
  have hk : [] ∉ K.map String.data := nil_notMem_map_data K hK
  refine ⟨stripExts (K.map String.data) p.data, stripExts_stripSpec _ _, ?_⟩
  unfold normalize
  rw [stripWhileKnown_eq_stripExts (K.map String.data) hk (p.data.length + 1) p.data
    (by omega)]
  rfl

/-- Witness for C1 at a concrete input. -/
theorem C1_witness :
    ∃ b : List Char, StripSpec (["tab"].map String.data) "x.tab".data b ∧
      normalize "x.tab" ".csv" ["tab"] = some (String.mk (b ++ ".csv".data)) :=
  C1_normalize_strips_known_tokens.1 "x.tab" ".csv" ["tab"] (by decide)

/-- C2 counterexample: `normalize` is not idempotent for every path, target
extension and token set.  With `p = ""`, `e = ".tab"`, `K = {"tab"}` the first
application yields `".tab"`, but `os.path.splitext` treats the leading-dot
basename `".tab"` as having no extension, so the second application appends
again and yields `".tab.tab"`. -/
theorem C2_counterexample :
    normalize "" ".tab" ["tab"] = some ".tab" ∧
    normalize ".tab" ".tab" ["tab"] = some ".tab.tab" ∧
    normalize ".tab" ".tab" ["tab"] ≠ normalize "" ".tab" ["tab"] := by decide

/-- C2 as amended: `normalize` is idempotent provided the target extension is a
dot-led chain of tokens that are all in the known set, contain no dot and no
path separator, the empty token is not known, and the stripped base's basename
contains at least one non-dot character (ruling out bases like `""` or `".."`
whose appended extension `splitext` refuses to strip). -/
theorem C2_normalize_idempotent_amended (p e : String) (K : List String) (b : List Char)
    (ts : List (List Char))
    (hK : "" ∉ K)
    (hts : ∀ t ∈ ts, t ∈ K.map String.data ∧ '.' ∉ t ∧ '/' ∉ t)
    (he : e.data = extChainL ts)
    (hb : stripWhileKnown (K.map String.data) (p.data.length + 1) p.data = some b)
    (hbase : (basenameL b).any (fun c => c != '.') = true) :
    ∃ r : String, normalize p e K = some r ∧ normalize r e K = some r := by
  have hk : [] ∉ K.map String.data := nil_notMem_map_data K hK
  have hbridge := stripWhileKnown_eq_stripExts (K.map String.data) hk
    (p.data.length + 1) p.data (by omega)
  have hbeq : b = stripExts (K.map String.data) p.data := by
    rw [hbridge] at hb
    exact (Option.some.inj hb).symm
  have hstripped : ¬((splitextL b).2 ≠ [] ∧
      (splitextL b).2.drop 1 ∈ K.map String.data) := by
    rw [hbeq]
    exact stripExts_stripped (K.map String.data) p.data
  refine ⟨String.mk (b ++ e.data), ?_, ?_⟩
  · unfold normalize
    rw [hb]
    rfl
  · unfold normalize
    rw [show (String.mk (b ++ e.data)).data = b ++ e.data from rfl]
    rw [stripWhileKnown_eq_stripExts (K.map String.data) hk ((b ++ e.data).length + 1)
      (b ++ e.data) (by omega)]
    rw [show b ++ e.data = b ++ extChainL ts by rw [he]]
    rw [stripExts_chain (K.map String.data) b hstripped hbase ts hts]
    rw [show extChainL ts = e.data by rw [he]]
    rfl

/-- Witness for C2's amended theorem at a concrete input. -/
theorem C2_witness :
    ∃ r : String, normalize "report" ".tab" ["tab"] = some r ∧
      normalize r ".tab" ["tab"] = some r :=
  C2_normalize_idempotent_amended "report" ".tab" ["tab"] "report".data [['t', 'a', 'b']]
    (by decide) (by decide) (by decide) (by decide) (by decide)

/-- C5 counterexample (to the simultaneity part of the claim): after
`update_messages` the conditions `no_file_name` and `empty_input` can never be
active at the same time, because the first requires an empty and the second a
non-empty file name. -/
theorem C5_counterexample :
    ¬ ∃ s : WidgetState Unit, (update_messages s).msgs.no_file_name = true ∧
      (update_messages s).msgs.empty_input = true := by
  rintro ⟨s, h1, h2⟩
  simp only [update_messages, Bool.and_eq_true, beq_iff_eq, Bool.not_eq_true'] at h1 h2
  rw [h1.1] at h2
  simp at h2

/-- C5 as amended: after `update_messages`, `no_file_name` is active iff
`auto_save` is on and the filename is empty, and `empty_input` is active iff the
filename is non-empty and no data is present; the two conditions are mutually
exclusive (never active simultaneously) because one requires an empty and the
other a non-empty filename. -/
theorem C5_update_messages_amended {α : Type} (s : WidgetState α) :
    ((update_messages s).msgs.no_file_name = true ↔
      (s.auto_save = true ∧ s.filename = "")) ∧
    ((update_messages s).msgs.empty_input = true ↔
      (s.filename ≠ "" ∧ s.data = none)) ∧
    ¬((update_messages s).msgs.no_file_name = true ∧
      (update_messages s).msgs.empty_input = true) := by
  refine ⟨?_, ?_, ?_⟩
  · simp [update_messages, Bool.and_eq_true, beq_iff_eq, and_comm]
  · simp [update_messages, Bool.and_eq_true, beq_iff_eq, Option.isNone_iff_eq_none]
  · rintro ⟨h1, h2⟩
    simp only [update_messages, Bool.and_eq_true, beq_iff_eq, Bool.not_eq_true'] at h1 h2
    rw [h1.1] at h2
    simp at h2

/-- Witness for C5's amended theorem at a concrete input. -/
theorem C5_witness :
    ((update_messages (mkState none "out.tab" false)).msgs.no_file_name = true ↔
      ((mkState none "out.tab" false).auto_save = true ∧
        (mkState none "out.tab" false).filename = "")) ∧
    ((update_messages (mkState none "out.tab" false)).msgs.empty_input = true ↔
      ((mkState none "out.tab" false).filename ≠ "" ∧
        (mkState none "out.tab" false).data = none)) ∧
    ¬((update_messages (mkState none "out.tab" false)).msgs.no_file_name = true ∧
      (update_messages (mkState none "out.tab" false)).msgs.empty_input = true) :=
  C5_update_messages_amended (mkState none "out.tab" false)

/-- C7: `_extension_from_filter` maps every label of the form
`prefix (*.ext1.ext2)` to exactly `.ext1.ext2` (everything from the first dot of
the trailing parenthesized group to the closing parenthesis), and fails
(`re.search` returns `None`, so `.group(1)` raises) on labels without the
expected shape. -/
theorem C7_extension_from_filter :
    (∀ (pre ext1 ext2 : String), '(' ∉ ext1.data → '(' ∉ ext2.data →
      extension_from_filter (pre ++ "(*." ++ ext1 ++ "." ++ ext2 ++ ")") =
        some ("." ++ ext1 ++ "." ++ ext2)) ∧
    extension_from_filter "Tab-separated values" = none := by
  refine ⟨?_, by decide⟩
  intro pre e1 e2 h1 h2
  unfold extension_from_filter
  have hdata : (pre ++ "(*." ++ e1 ++ "." ++ e2 ++ ")").data =
      pre.data ++ '(' :: '*' :: '.' :: (e1.data ++ '.' :: (e2.data ++ [')'])) := by
    simp only [string_data_append]
    simp [show ("(*." : String).data = ['(', '*', '.'] from rfl,
      show ("." : String).data = ['.'] from rfl,
      show (")" : String).data = [')'] from rfl]
  rw [hdata, extFromFilterL_shape pre.data e1.data e2.data h1 h2]
  show some (String.mk ('.' :: (e1.data ++ '.' :: e2.data))) =
    some ("." ++ e1 ++ "." ++ e2)
  congr 1
  apply string_data_inj
  simp only [string_data_append]
  simp [show ("." : String).data = ['.'] from rfl]

/-- Witness for C7 at a concrete input. -/
theorem C7_witness :
    extension_from_filter ("Tab-separated values " ++ "(*." ++ "tab" ++ "." ++ "gz" ++ ")") =
      some ("." ++ "tab" ++ "." ++ "gz") :=
  C7_extension_from_filter.1 "Tab-separated values " "tab" "gz" (by decide) (by decide)

/-- C9: the extension-stripping loop terminates for every input path, because
the empty extension token is never a member of the known-extension set: the
token set computed from the filter labels never contains `""`, and whenever `""`
is not in the known set the loop exits within `length + 1` iterations; in
particular a trailing-dot name stops the loop instead of being stripped
indefinitely. -/
theorem C9_strip_loop_terminates :
    (∀ (known : List (List Char)) (p : List Char), [] ∉ known →
      (stripWhileKnown known (p.length + 1) p).isSome = true) ∧
    (∀ (filters : List String) (ks : List String), knownExts filters = some ks → "" ∉ ks) ∧
    normalize "report." ".csv" ["tab"] = some "report..csv" := by
  refine ⟨?_, ?_, by decide⟩
  · intro known p hk
    rw [stripWhileKnown_eq_stripExts known hk (p.length + 1) p (by omega)]
    rfl
  · intro filters ks h
    unfold knownExts at h
    cases hm : filters.mapM extension_from_filter with
    | none => rw [hm] at h; exact absurd h (by simp)
    | some exts =>
      rw [hm] at h
      have hks := Option.some.inj h
      intro hmem
      rw [← hks] at hmem
      have := (List.mem_filter.mp hmem).2
      simp at this

/-- Witness for C9 at concrete inputs. -/
theorem C9_witness :
    (stripWhileKnown [['t', 'a', 'b']] ("a.".data.length + 1) "a.".data).isSome = true ∧
    "" ∉ ["tab"] :=
  ⟨C9_strip_loop_terminates.1 [['t', 'a', 'b']] "a.".data (by decide),
    C9_strip_loop_terminates.2.1 ["Tab-separated values (*.tab)"] ["tab"] (by decide)⟩

theorem on_new_input_eq_try_save {α : Type} (reg : Registry α) (pick : String × String)
    (s : WidgetState α) (ha : s.auto_save = true) (hf : s.filename ≠ "") :
    on_new_input reg pick s = try_save reg (update_messages (clearAllMsgs s)) := by
  unfold on_new_input save_file
  simp [update_messages, clearAllMsgs, ha, beq_empty_eq_false s.filename hf]

/-- C3: an `IOError` raised by the writer during an actual save attempt (data
present, filename non-empty) is caught (never propagated to the host), surfaced
as `general_error` with the failure's message, and leaves `filename`, `filter`
and `auto_save` unchanged; in particular this holds when the save is triggered
through `on_new_input` with auto-save enabled. -/
theorem C3_io_failure_caught {α : Type} (reg : Registry α) (pick : String × String)
    (s : WidgetState α) (d : α) (m : String)
    (hd : s.data = some d) (hf : s.filename ≠ "")
    (hw : reg s.filter s.filename d = WriteResult.ioError m) :
    ((try_save reg s).raised = none ∧
     (try_save reg s).state.msgs.general_error = some m ∧
     (try_save reg s).state.filename = s.filename ∧
     (try_save reg s).state.filter = s.filter ∧
     (try_save reg s).state.auto_save = s.auto_save) ∧
    (s.auto_save = true →
      ((on_new_input reg pick s).raised = none ∧
       (on_new_input reg pick s).state.msgs.general_error = some m ∧
       (on_new_input reg pick s).state.filename = s.filename ∧
       (on_new_input reg pick s).state.filter = s.filter ∧
       (on_new_input reg pick s).state.auto_save = s.auto_save)) := by
  have h1 := try_save_write reg s d hd hf
  rw [hw] at h1
  constructor
  · rw [h1]
    exact ⟨rfl, rfl, rfl, rfl, rfl⟩
  · intro ha
    rw [on_new_input_eq_try_save reg pick s ha hf]
    have h2 := try_save_write reg (update_messages (clearAllMsgs s)) d hd hf
    simp only [update_messages, clearAllMsgs] at h2 ⊢
    rw [hw] at h2
    rw [h2]
    exact ⟨rfl, rfl, rfl, rfl, rfl⟩

/-- Witness state: data present, filename set, auto-save on. -/
def stIO : WidgetState Nat := mkState (some 7) "out.tab" true

/-- Witness for C3 at a concrete input. -/
theorem C3_witness :
    ((try_save regIO stIO).raised = none ∧
     (try_save regIO stIO).state.msgs.general_error = some "disk full" ∧
     (try_save regIO stIO).state.filename = stIO.filename ∧
     (try_save regIO stIO).state.filter = stIO.filter ∧
     (try_save regIO stIO).state.auto_save = stIO.auto_save) ∧
    ((on_new_input regIO ("", "") stIO).raised = none ∧
     (on_new_input regIO ("", "") stIO).state.msgs.general_error = some "disk full" ∧
     (on_new_input regIO ("", "") stIO).state.filename = stIO.filename ∧
     (on_new_input regIO ("", "") stIO).state.filter = stIO.filter ∧
     (on_new_input regIO ("", "") stIO).state.auto_save = stIO.auto_save) := by
  have h := C3_io_failure_caught regIO ("", "") stIO 7 "disk full" rfl (by decide) rfl
  exact ⟨h.1, h.2 rfl⟩

/-- C4: `on_new_input` first clears all raised error/warning/information
conditions, then recomputes the status messages, and invokes save exactly when
`auto_save` is on and the filename is non-empty; in particular with auto-save on
and an empty filename, `no_file_name` is active, `empty_input` is inactive, and
no writer is invoked. -/
theorem C4_on_new_input {α : Type} (reg : Registry α) (pick : String × String)
    (s : WidgetState α) :
    (s.auto_save = true → s.filename ≠ "" →
      on_new_input reg pick s = save_file reg pick (update_messages (clearAllMsgs s))) ∧
    (s.auto_save = false ∨ s.filename = "" →
      on_new_input reg pick s = ⟨update_messages (clearAllMsgs s), none, []⟩) ∧
    (s.auto_save = true → s.filename = "" →
      (on_new_input reg pick s).state.msgs.no_file_name = true ∧
      (on_new_input reg pick s).state.msgs.empty_input = false ∧
      (on_new_input reg pick s).writes = []) := by
  have hbranch : ∀ (hor : s.auto_save = false ∨ s.filename = ""),
      on_new_input reg pick s = ⟨update_messages (clearAllMsgs s), none, []⟩ := by
    intro hor
    unfold on_new_input
    cases hor with
    | inl ha => simp [update_messages, clearAllMsgs, ha]
    | inr hf => simp [update_messages, clearAllMsgs, hf]
  refine ⟨?_, hbranch, ?_⟩
  · intro ha hf
    unfold on_new_input
    simp [update_messages, clearAllMsgs, ha, beq_empty_eq_false s.filename hf]
  · intro ha hf
    rw [hbranch (Or.inr hf)]
    refine ⟨?_, ?_, rfl⟩
    · show ((s.filename == "") && s.auto_save) = true
      rw [hf, ha]
      rfl
    · show ((!(s.filename == "")) && s.data.isNone) = false
      rw [hf]
      rfl

/-- Witness state: data present, empty filename, auto-save on. -/
def stAuto : WidgetState Nat := mkState (some 1) "" true

/-- Witness for C4 at a concrete input. -/
theorem C4_witness :
    (on_new_input regOk ("", "") stAuto).state.msgs.no_file_name = true ∧
    (on_new_input regOk ("", "") stAuto).state.msgs.empty_input = false ∧
    (on_new_input regOk ("", "") stAuto).writes = [] :=
  (C4_on_new_input regOk ("", "") stAuto).2.2 rfl rfl

/-- C6: `save_file` delegates to `save_file_as` when the filename is empty and
otherwise runs `_try_save`; `_try_save` performs no writer invocation and raises
nothing when data is absent or the filename is empty (only clearing
`general_error`), and otherwise invokes the writer for the current filter on the
current filename and data; in particular with a filename set and data absent,
`save_file` invokes no writer and raises no error. -/
theorem C6_save_delegation {α : Type} (reg : Registry α) (pick : String × String)
    (s : WidgetState α) :
    (s.filename = "" → save_file reg pick s = save_file_as reg pick s) ∧
    (s.filename ≠ "" → save_file reg pick s = try_save reg s) ∧
    ((s.data = none ∨ s.filename = "") →
      (try_save reg s).writes = [] ∧ (try_save reg s).raised = none ∧
      (try_save reg s).state = { s with msgs := { s.msgs with general_error := none } }) ∧
    (∀ d : α, s.data = some d → s.filename ≠ "" →
      (try_save reg s).writes = [(s.filter, s.filename, d)]) ∧
    (s.filename ≠ "" → s.data = none →
      (save_file reg pick s).writes = [] ∧ (save_file reg pick s).raised = none) := by
  have hskip : (s.data = none ∨ s.filename = "") →
      try_save reg s = ⟨{ s with msgs := { s.msgs with general_error := none } }, none, []⟩ := by
    intro hor
    cases hor with
    | inl hd => exact try_save_no_data reg s hd
    | inr hf =>
      cases hd : s.data with
      | none => rw [try_save_no_data reg s hd, hd]
      | some d => rw [try_save_no_filename reg s d hd hf, hd]
  have hfile : s.filename ≠ "" → save_file reg pick s = try_save reg s := by
    intro hf
    unfold save_file
    rw [beq_empty_eq_false s.filename hf]
    rfl
  refine ⟨?_, hfile, ?_, ?_, ?_⟩
  · intro hf
    unfold save_file
    rw [hf]
    rfl
  · intro hor
    rw [hskip hor]
    exact ⟨rfl, rfl, rfl⟩
  · intro d hd hf
    have h1 := try_save_write reg s d hd hf
    rw [h1]
    cases reg s.filter s.filename d <;> rfl
  · intro hf hd
    rw [hfile hf, hskip (Or.inl hd)]
    exact ⟨rfl, rfl⟩

/-- Witness state: data absent, filename set. -/
def stEmpty : WidgetState Nat := mkState none "out.tab" false

/-- Witness for C6 at a concrete input. -/
theorem C6_witness :
    (save_file regOk ("", "") stEmpty).writes = [] ∧
    (save_file regOk ("", "") stEmpty).raised = none :=
  (C6_save_delegation regOk ("", "") stEmpty).2.2.2.2 (by decide) rfl

/-- C8: cancelling the file picker during `save_file_as` (empty filename
returned) changes nothing: `filename`, `filter` and `last_dir` keep their
values, no save is attempted, and no status condition is raised. -/
theorem C8_cancel_is_noop {α : Type} (reg : Registry α) (pick : String × String)
    (s : WidgetState α) (hc : pick.1 = "") :
    save_file_as reg pick s = ⟨s, none, []⟩ ∧
    (save_file_as reg pick s).state.filename = s.filename ∧
    (save_file_as reg pick s).state.filter = s.filter ∧
    (save_file_as reg pick s).state.last_dir = s.last_dir ∧
    (save_file_as reg pick s).state.msgs = s.msgs ∧
    (save_file_as reg pick s).writes = [] := by
  have h : save_file_as reg pick s = ⟨s, none, []⟩ := by
    unfold save_file_as
    simp [hc]
  rw [h]
  exact ⟨rfl, rfl, rfl, rfl, rfl, rfl⟩

/-- Witness for C8 at a concrete input. -/
theorem C8_witness :
    save_file_as regOk ("", "CSV files (*.csv)") stEmpty = ⟨stEmpty, none, []⟩ ∧
    (save_file_as regOk ("", "CSV files (*.csv)") stEmpty).state.filename = stEmpty.filename ∧
    (save_file_as regOk ("", "CSV files (*.csv)") stEmpty).state.filter = stEmpty.filter ∧
    (save_file_as regOk ("", "CSV files (*.csv)") stEmpty).state.last_dir = stEmpty.last_dir ∧
    (save_file_as regOk ("", "CSV files (*.csv)") stEmpty).state.msgs = stEmpty.msgs ∧
    (save_file_as regOk ("", "CSV files (*.csv)") stEmpty).writes = [] :=
  C8_cancel_is_noop regOk ("", "CSV files (*.csv)") stEmpty rfl

/-- C10: `_try_save` catches only `IOError`: any other exception raised by the
writer propagates out of `save_file` with `general_error` left cleared (it is
cleared at the start of the attempt); moreover `general_error` is cleared at the
start of every `_try_save`, so a save skipped for lack of data removes a
previously shown `general_error`. -/
theorem C10_only_ioerror_caught {α : Type} (reg : Registry α) (pick : String × String)
    (s : WidgetState α) :
    (∀ (d : α) (m : String), s.data = some d → s.filename ≠ "" →
      reg s.filter s.filename d = WriteResult.otherError m →
      (try_save reg s).raised = some m ∧
      (try_save reg s).state.msgs.general_error = none ∧
      (save_file reg pick s).raised = some m) ∧
    (s.data = none →
      (try_save reg s).state.msgs.general_error = none ∧
      (try_save reg s).writes = [] ∧ (try_save reg s).raised = none) := by
  constructor
  · intro d m hd hf hw
    have h1 := try_save_write reg s d hd hf
    rw [hw] at h1
    have hsf : save_file reg pick s = try_save reg s := by
      unfold save_file
      rw [beq_empty_eq_false s.filename hf]
      rfl
    rw [hsf, h1]
    exact ⟨rfl, rfl, rfl⟩
  · intro hd
    rw [try_save_no_data reg s hd]
    exact ⟨rfl, rfl, rfl⟩

/-- Witness state for C10: data present, filename set, old error shown. -/
def stOther : WidgetState Nat := mkState (some 3) "out.tab" false

/-- Witness for C10 at a concrete input. -/
theorem C10_witness :
    ((try_save regOther stOther).raised = some "bad value" ∧
     (try_save regOther stOther).state.msgs.general_error = none ∧
     (save_file regOther ("", "") stOther).raised = some "bad value") ∧
    ((try_save regOther stEmpty).state.msgs.general_error = none ∧
     (try_save regOther stEmpty).writes = [] ∧
     (try_save regOther stEmpty).raised = none) :=
  ⟨(C10_only_ioerror_caught regOther ("", "") stOther).1 3 "bad value" rfl (by decide) rfl,
   (C10_only_ioerror_caught regOther ("", "") stEmpty).2 rfl⟩

end OWSaveBase
